import Mathlib

set_option maxHeartbeats 1000000

/-!
Verification development for the lerproxy reverse proxy.

The Go sources are shallowly embedded: pure string manipulation becomes
functions on `String`/`List Char`; the backend classification cascade of
`setProxy` (src/main.go) becomes a total function into a variant type;
the mapping-file parser `readMapping` becomes a recursion over the list of
input lines; the request directors (src/main.go and src/reverse/proxy.go)
become functions on a request record; the idle-timeout connection
(src/timeout/conn.go) becomes explicit state passing with oracles for the
results of the underlying socket operations; the TLS-serving branch of
`run` (src/main.go) becomes a function from the three configured durations
to a strategy value.
-/

/-- Errors produced by the program (the `fmt.Errorf` and `log.E.Err` sites in
src/main.go), plus a generic constructor standing for errors coming from the
operating system / standard library. -/
inductive GoErr where
  | emptyMapping : GoErr
  | invalidHostname (hn : String) : GoErr
  | invalidLine (line : String) : GoErr
  | readFileError (path : String) : GoErr
  | other (msg : String) : GoErr

deriving instance DecidableEq for GoErr

/-- `os.PathSeparator` on the unix platforms this program targets. -/
def pathSeparator : Char := '/'

/-- List-level prefix test, `p` is the candidate prefix of `s`. -/
def listStartsWith : List Char → List Char → Bool
  | _, [] => true
  | [], _ :: _ => false
  | c :: cs, p :: ps => c = p && listStartsWith cs ps

/-- List-level suffix test, `p` is the candidate suffix of `s`
(mirrors Go `strings.HasSuffix`). -/
def listEndsWith (s p : List Char) : Bool :=
  listStartsWith s.reverse p.reverse

/-- Go `strings.ContainsRune`. -/
def containsChar (s : String) (c : Char) : Bool :=
  s.data.contains c

/-- Go `filepath.IsAbs` on unix: the path starts with "/"
(src/main.go line 180). -/
def isAbs (p : String) : Bool :=
  listStartsWith p.data ['/']

/-- The zero byte appended to abstract-socket addresses
(src/main.go line 179, `string(byte(0))`). -/
def nulChar : Char := Char.ofNat 0

/-- The relevant parts of Go `url.URL` as used by this program. -/
structure GoURL where
  scheme : String
  host : String
  path : String
  rawQuery : String

deriving instance DecidableEq for GoURL

/-- The backend variants selected by the classification cascade inside the
`setProxy` loop (src/main.go lines 175-218): abstract unix socket, static
directory, well-known nostr.json document, filesystem unix socket, parsed
http/https URL, and the TCP fallback. -/
inductive Backend where
  | abstractUnix (dialAddr : String)
  | staticDir (root : String)
  | wellKnown (path : String)
  | unixUpstream (path : String)
  | httpUpstream (u : GoURL)
  | tcpUpstream (addr : String)

deriving instance DecidableEq for Backend

/-- The backend classification cascade of `setProxy` (src/main.go lines
175-218), translated branch for branch. `parseURL` is an oracle standing for
Go `url.Parse` (standard library, external to the repository); `isLinux`
stands for `runtime.GOOS == "linux"`. The `network` variable of the source
is carried inside the variants (see `dialArgs`). -/
def classify (isLinux : Bool) (parseURL : String → Option GoURL) (ba : String) : Backend :=
  if ba ≠ "" ∧ ba.data.head? = some '@' ∧ isLinux = true then
    Backend.abstractUnix (ba.push nulChar)
  else if isAbs ba then
    if listEndsWith ba.data ['/'] then Backend.staticDir ba
    else if listEndsWith ba.data "nostr.json".data then Backend.wellKnown ba
    else Backend.unixUpstream ba
  else
    match parseURL ba with
    | some u =>
      if u.scheme = "http" ∨ u.scheme = "https" then Backend.httpUpstream u
      else Backend.tcpUpstream ba
    | none => Backend.tcpUpstream ba

/-- The (network, address, connect-timeout-in-seconds) triple handed to
`net.DialTimeout` by the generic reverse-proxy transport (src/main.go lines
230-236); `none` for the variants that do not dial through that transport. -/
def dialArgs : Backend → Option (String × String × Nat)
  | Backend.abstractUnix a => some ("unix", a, 5)
  | Backend.unixUpstream p => some ("unix", p, 5)
  | Backend.tcpUpstream a => some ("tcp", a, 5)
  | Backend.staticDir _ => none
  | Backend.wellKnown _ => none
  | Backend.httpUpstream _ => none

/-- One rule of the spec-side classification table: a guard on the backend
address and the variant built when the guard is the first to match. -/
structure ClassRule where
  guard : String → Bool
  build : String → Backend

/-- The spec-side classification rules, in the fixed precedence order the
spec states: abstract-socket prefix, absolute path with trailing separator,
absolute path ending in nostr.json, absolute path, parseable URL with http or
https scheme. Anything that matches no rule falls to the TCP upstream
default (see `specClassify`). -/
def specRules (isLinux : Bool) (parseURL : String → Option GoURL) : List ClassRule :=
  [ ⟨fun ba => decide (ba ≠ "") && decide (ba.data.head? = some '@') && isLinux,
      fun ba => Backend.abstractUnix (ba.push nulChar)⟩,
    ⟨fun ba => isAbs ba && listEndsWith ba.data ['/'],
      fun ba => Backend.staticDir ba⟩,
    ⟨fun ba => isAbs ba && listEndsWith ba.data "nostr.json".data,
      fun ba => Backend.wellKnown ba⟩,
    ⟨fun ba => isAbs ba,
      fun ba => Backend.unixUpstream ba⟩,
    ⟨fun ba =>
        match parseURL ba with
        | some u => decide (u.scheme = "http" ∨ u.scheme = "https")
        | none => false,
      fun ba =>
        match parseURL ba with
        | some u => Backend.httpUpstream u
        | none => Backend.tcpUpstream ba⟩ ]

/-- First-match selection over an ordered rule table. -/
def firstMatch (rules : List ClassRule) (fallback : String → Backend) (ba : String) : Backend :=
  match rules with
  | [] => fallback ba
  | r :: rest => if r.guard ba then r.build ba else firstMatch rest fallback ba

/-- Spec-side classification: the explicit, ordered, total first-match rule
table described by the spec, with the TCP upstream as the default. -/
def specClassify (isLinux : Bool) (parseURL : String → Option GoURL) (ba : String) : Backend :=
  firstMatch (specRules isLinux parseURL) (fun a => Backend.tcpUpstream a) ba

lemma classify_eq_specClassify (isLinux : Bool) (pu : String → Option GoURL) (ba : String) :
    classify isLinux pu ba = specClassify isLinux pu ba := by
  by_cases h1 : ba ≠ "" ∧ ba.data.head? = some '@' ∧ isLinux = true
  · simp [classify, specClassify, specRules, firstMatch, h1, h1.1, h1.2.1, h1.2.2]
  · have hg1 : (decide (ba ≠ "") && decide (ba.data.head? = some '@') && isLinux) = false := by
      by_cases ha : ba = ""
      · simp [ha]
      · by_cases hb : ba.data.head? = some '@'
        · cases hlin : isLinux
          · simp
          · exact absurd ⟨ha, hb, hlin⟩ h1
        · simp [hb]
    simp only [classify, specClassify, specRules, firstMatch]
    rw [if_neg h1]
    simp only [hg1, Bool.false_eq_true, if_false]
    by_cases habs : isAbs ba = true
    · by_cases hsl : listEndsWith ba.data ['/'] = true
      · simp [habs, hsl]
      · by_cases hnj : listEndsWith ba.data "nostr.json".data = true
        · simp [habs, hsl, hnj]
        · simp [habs, hsl, hnj]
    · have habs0 : isAbs ba = false := by simpa using habs
      cases hurl : pu ba with
      | none => simp [habs0, hurl]
      | some u =>
        by_cases hsch : u.scheme = "http" ∨ u.scheme = "https"
        · simp [habs0, hurl, hsch]
        · simp [habs0, hurl, hsch]

/-- **C2**: for every hostname and backend-address string, `setProxy` selects
exactly one backend variant by the fixed first-match precedence: nonempty
address starting with a commercial at on Linux becomes an abstract unix
socket upstream; otherwise an absolute path ending in the path separator
becomes a static directory handler; otherwise an absolute path ending in
nostr.json becomes a well-known-document handler; otherwise an absolute path
becomes a unix-socket upstream; otherwise an address parsing as a URL with
scheme http or https becomes an HTTP upstream; otherwise the address becomes
a TCP upstream dialed with a 5-second connect timeout. -/
theorem c2_backend_precedence (isLinux : Bool) (pu : String → Option GoURL) (ba : String) :
    classify isLinux pu ba = specClassify isLinux pu ba ∧
    dialArgs (Backend.tcpUpstream ba) = some ("tcp", ba, 5) ∧
    dialArgs (Backend.unixUpstream ba) = some ("unix", ba, 5) := by
  exact ⟨classify_eq_specClassify isLinux pu ba, rfl, rfl⟩

lemma push_data (s : String) (c : Char) : (s.push c).data = s.data ++ [c] := by
  cases s
  rfl

/-- **C3**: for every backend-address string beginning with a commercial at
on Linux, the classified backend is the abstract unix socket variant whose
dial address is byte for byte the literal mapping string with exactly one
zero byte appended, and the dial network is "unix". -/
theorem c3_abstract_socket (pu : String → Option GoURL) (ba : String)
    (hne : ba ≠ "") (hat : ba.data.head? = some '@') :
    classify true pu ba = Backend.abstractUnix (ba.push nulChar) ∧
    (ba.push nulChar).data = ba.data ++ [Char.ofNat 0] ∧
    dialArgs (Backend.abstractUnix (ba.push nulChar)) =
      some ("unix", ba.push nulChar, 5) := by
  refine ⟨?_, ?_, rfl⟩
  · unfold classify
    rw [if_pos ⟨hne, hat, rfl⟩]
  · rw [push_data]
    rfl

/-- Closed witness for `c3_abstract_socket` at the address "@sock". -/
theorem c3_abstract_socket_witness :
    classify true (fun _ => none) "@sock" = Backend.abstractUnix ("@sock".push nulChar) ∧
    ("@sock".push nulChar).data = "@sock".data ++ [Char.ofNat 0] ∧
    dialArgs (Backend.abstractUnix ("@sock".push nulChar)) =
      some ("unix", "@sock".push nulChar, 5) :=
  c3_abstract_socket (fun _ => none) "@sock" (by decide) (by decide)

/-- The handlers registered on the `http.ServeMux` by `setProxy`
(src/main.go lines 186-187, 194-199, 205-215, 219-240). -/
inductive Handler where
  | fileServer (root : String)
  | nostrJson (content : String)
  | reverseProxy (target : GoURL)
  | dialProxy (network : String) (addr : String) (timeoutSec : Nat)

deriving instance DecidableEq for Handler

/-- One registration on the mux: the hostname the loop variable held, the
literal pattern string passed to `mux.Handle`, and the handler. -/
structure Route where
  host : String
  pattern : String
  handler : Handler

deriving instance DecidableEq for Route

/-- The fixed well-known sub-path (src/main.go line 194). -/
def wellKnownSuffix : String := "/.well-known/nostr.json"

/-- The per-entry loop of `setProxy` (src/main.go lines 169-241). `readFile`
is an oracle standing for `os.ReadFile`; the accumulated `routes` are the mux
registrations so far and `logs` the errors logged by `chk.E` so far. An
invalid hostname aborts with an error; a well-known document whose read
fails is logged and skipped. -/
def setProxyLoop (isLinux : Bool) (pu : String → Option GoURL) (readFile : String → Option String) :
    List (String × String) → List Route → List GoErr → Except GoErr (List Route × List GoErr)
  | [], routes, logs => Except.ok (routes, logs)
  | (hn, ba) :: rest, routes, logs =>
    if containsChar hn pathSeparator then Except.error (GoErr.invalidHostname hn)
    else
      match classify isLinux pu ba with
      | Backend.staticDir root =>
          setProxyLoop isLinux pu readFile rest
            (routes ++ [⟨hn, hn ++ "/", Handler.fileServer root⟩]) logs
      | Backend.wellKnown path =>
          match readFile path with
          | none =>
              setProxyLoop isLinux pu readFile rest routes
                (logs ++ [GoErr.readFileError path])
          | some content =>
              setProxyLoop isLinux pu readFile rest
                (routes ++ [⟨hn, hn ++ wellKnownSuffix, Handler.nostrJson content⟩]) logs
      | Backend.httpUpstream u =>
          setProxyLoop isLinux pu readFile rest
            (routes ++ [⟨hn, hn ++ "/", Handler.reverseProxy u⟩]) logs
      | Backend.abstractUnix a =>
          setProxyLoop isLinux pu readFile rest
            (routes ++ [⟨hn, hn ++ "/", Handler.dialProxy "unix" a 5⟩]) logs
      | Backend.unixUpstream p =>
          setProxyLoop isLinux pu readFile rest
            (routes ++ [⟨hn, hn ++ "/", Handler.dialProxy "unix" p 5⟩]) logs
      | Backend.tcpUpstream a =>
          setProxyLoop isLinux pu readFile rest
            (routes ++ [⟨hn, hn ++ "/", Handler.dialProxy "tcp" a 5⟩]) logs

/-- `setProxy` (src/main.go lines 164-243): an empty mapping is a fatal
error, otherwise the loop builds the mux; on success the error result is
nil. -/
def setProxy (isLinux : Bool) (pu : String → Option GoURL) (readFile : String → Option String)
    (mapping : List (String × String)) : Except GoErr (List Route × List GoErr) :=
  if mapping.isEmpty then Except.error GoErr.emptyMapping
  else setProxyLoop isLinux pu readFile mapping [] []

/-- Modelled from the spec: `util.GetKeys` (package util is not among the
sources); the whitelist handed to the autocert manager is produced by
`util.GetKeys(mapping)` at src/main.go line 152, the keys of the mapping. -/
def GetKeys (mapping : List (String × String)) : List String :=
  mapping.map Prod.fst

/-- The hostname whitelist handed to `autocert.HostWhitelist`
(src/main.go lines 149-154). -/
def hostWhitelist (mapping : List (String × String)) : List String :=
  GetKeys mapping

/-- Whether an `Except` value is the error case. -/
def isErr {ε α : Type} : Except ε α → Bool
  | Except.error _ => true
  | Except.ok _ => false

lemma setProxyLoop_err_iff (isLinux : Bool) (pu : String → Option GoURL)
    (rF : String → Option String) :
    ∀ (l : List (String × String)) (routes : List Route) (logs : List GoErr),
      isErr (setProxyLoop isLinux pu rF l routes logs) = true ↔
        ∃ p ∈ l, containsChar p.1 pathSeparator = true := by
  intro l
  induction l with
  | nil => intro routes logs; simp [setProxyLoop, isErr]
  | cons hd tl ih =>
    intro routes logs
    obtain ⟨hn, ba⟩ := hd
    by_cases hsep : containsChar hn pathSeparator = true
    · simp [setProxyLoop, hsep, isErr]
    · have hsep0 : containsChar hn pathSeparator = false := by simpa using hsep
      cases hcl : classify isLinux pu ba with
      | staticDir root => simp [setProxyLoop, hsep0, hcl, ih, hsep]
      | wellKnown path =>
        cases hrf : rF path with
        | none => simp [setProxyLoop, hsep0, hcl, hrf, ih, hsep]
        | some content => simp [setProxyLoop, hsep0, hcl, hrf, ih, hsep]
      | httpUpstream u => simp [setProxyLoop, hsep0, hcl, ih, hsep]
      | abstractUnix a => simp [setProxyLoop, hsep0, hcl, ih, hsep]
      | unixUpstream p => simp [setProxyLoop, hsep0, hcl, ih, hsep]
      | tcpUpstream a => simp [setProxyLoop, hsep0, hcl, ih, hsep]

/-- **C4**: `setProxy` fails, returning an error so no listener ever
starts, if and only if the mapping is empty or some hostname in the mapping
contains the OS path separator; the rejection is independent of the
backend-address string of the offending entry. -/
theorem c4_fatal_iff (isLinux : Bool) (pu : String → Option GoURL)
    (rF : String → Option String) (mapping : List (String × String)) :
    isErr (setProxy isLinux pu rF mapping) = true ↔
      mapping = [] ∨ ∃ p ∈ mapping, containsChar p.1 pathSeparator = true := by
  unfold setProxy
  by_cases hmt : mapping.isEmpty
  · have : mapping = [] := List.isEmpty_iff.mp hmt
    simp [hmt, isErr, this]
  · have hne : ¬mapping = [] := by
      intro h
      exact hmt (by simp [h])
    simp [hmt, setProxyLoop_err_iff, hne]

lemma keys_nodup_unique :
    ∀ (l : List (String × String)) (k v1 v2 : String),
      (l.map Prod.fst).Nodup → (k, v1) ∈ l → (k, v2) ∈ l → v1 = v2 := by
  intro l
  induction l with
  | nil => intro k v1 v2 _ h1; simp at h1
  | cons hd tl ih =>
    intro k v1 v2 hnd h1 h2
    obtain ⟨hk, hv⟩ := hd
    have hnd1 : hk ∉ tl.map Prod.fst := (List.nodup_cons.mp hnd).1
    have hnd2 : (tl.map Prod.fst).Nodup := (List.nodup_cons.mp hnd).2
    rcases List.mem_cons.mp h1 with he1 | ht1
    · rcases List.mem_cons.mp h2 with he2 | ht2
      · rw [Prod.mk.injEq] at he1 he2
        rw [he1.2, he2.2]
      · exfalso
        apply hnd1
        rw [Prod.mk.injEq] at he1
        rw [← he1.1]
        exact List.mem_map.mpr ⟨(k, v2), ht2, rfl⟩
    · rcases List.mem_cons.mp h2 with he2 | ht2
      · exfalso
        apply hnd1
        rw [Prod.mk.injEq] at he2
        rw [← he2.1]
        exact List.mem_map.mpr ⟨(k, v1), ht1, rfl⟩
      · exact ih k v1 v2 hnd2 ht1 ht2

lemma setProxyLoop_log_mono (iL : Bool) (pu : String → Option GoURL)
    (rF : String → Option String) :
    ∀ (l : List (String × String)) (r0 : List Route) (lg0 : List GoErr)
      (r : List Route) (lg : List GoErr),
      setProxyLoop iL pu rF l r0 lg0 = Except.ok (r, lg) → ∀ x ∈ lg0, x ∈ lg := by
  intro l
  induction l with
  | nil =>
    intro r0 lg0 r lg h x hx
    simp [setProxyLoop] at h
    rw [← h.2]
    exact hx
  | cons hd tl ih =>
    intro r0 lg0 r lg h x hx
    obtain ⟨hn, ba⟩ := hd
    by_cases hsep : containsChar hn pathSeparator = true
    · simp [setProxyLoop, hsep] at h
    · have hsep0 : containsChar hn pathSeparator = false := by simpa using hsep
      cases hcl : classify iL pu ba with
      | staticDir root =>
        simp only [setProxyLoop, hsep0, Bool.false_eq_true, if_false, hcl] at h
        exact ih _ _ _ _ h x hx
      | wellKnown path =>
        cases hrf : rF path with
        | none =>
          simp only [setProxyLoop, hsep0, Bool.false_eq_true, if_false, hcl, hrf] at h
          exact ih _ _ _ _ h x (List.mem_append_left _ hx)
        | some content =>
          simp only [setProxyLoop, hsep0, Bool.false_eq_true, if_false, hcl, hrf] at h
          exact ih _ _ _ _ h x hx
      | httpUpstream u =>
        simp only [setProxyLoop, hsep0, Bool.false_eq_true, if_false, hcl] at h
        exact ih _ _ _ _ h x hx
      | abstractUnix a =>
        simp only [setProxyLoop, hsep0, Bool.false_eq_true, if_false, hcl] at h
        exact ih _ _ _ _ h x hx
      | unixUpstream p =>
        simp only [setProxyLoop, hsep0, Bool.false_eq_true, if_false, hcl] at h
        exact ih _ _ _ _ h x hx
      | tcpUpstream a =>
        simp only [setProxyLoop, hsep0, Bool.false_eq_true, if_false, hcl] at h
        exact ih _ _ _ _ h x hx

lemma setProxyLoop_log_mem (iL : Bool) (pu : String → Option GoURL)
    (rF : String → Option String) :
    ∀ (l : List (String × String)) (r0 : List Route) (lg0 : List GoErr)
      (r : List Route) (lg : List GoErr) (hn ba path : String),
      setProxyLoop iL pu rF l r0 lg0 = Except.ok (r, lg) →
      (hn, ba) ∈ l →
      classify iL pu ba = Backend.wellKnown path →
      rF path = none →
      GoErr.readFileError path ∈ lg := by
  intro l
  induction l with
  | nil =>
    intro r0 lg0 r lg hn ba path _ hmem
    simp at hmem
  | cons hd tl ih =>
    intro r0 lg0 r lg hn ba path h hmem hcl hrf
    obtain ⟨h0, b0⟩ := hd
    by_cases hsep : containsChar h0 pathSeparator = true
    · simp [setProxyLoop, hsep] at h
    · have hsep0 : containsChar h0 pathSeparator = false := by simpa using hsep
      rcases List.mem_cons.mp hmem with he | ht
      · rw [Prod.mk.injEq] at he
        rw [he.2] at hcl
        simp only [setProxyLoop, hsep0, Bool.false_eq_true, if_false, hcl, hrf] at h
        exact setProxyLoop_log_mono iL pu rF tl _ _ r lg h
          (GoErr.readFileError path) (List.mem_append_right _ (List.mem_singleton.mpr rfl))
      · cases hcl0 : classify iL pu b0 with
        | staticDir root =>
          simp only [setProxyLoop, hsep0, Bool.false_eq_true, if_false, hcl0] at h
          exact ih _ _ _ _ hn ba path h ht hcl hrf
        | wellKnown path0 =>
          cases hrf0 : rF path0 with
          | none =>
            simp only [setProxyLoop, hsep0, Bool.false_eq_true, if_false, hcl0, hrf0] at h
            exact ih _ _ _ _ hn ba path h ht hcl hrf
          | some content =>
            simp only [setProxyLoop, hsep0, Bool.false_eq_true, if_false, hcl0, hrf0] at h
            exact ih _ _ _ _ hn ba path h ht hcl hrf
        | httpUpstream u =>
          simp only [setProxyLoop, hsep0, Bool.false_eq_true, if_false, hcl0] at h
          exact ih _ _ _ _ hn ba path h ht hcl hrf
        | abstractUnix a =>
          simp only [setProxyLoop, hsep0, Bool.false_eq_true, if_false, hcl0] at h
          exact ih _ _ _ _ hn ba path h ht hcl hrf
        | unixUpstream p =>
          simp only [setProxyLoop, hsep0, Bool.false_eq_true, if_false, hcl0] at h
          exact ih _ _ _ _ hn ba path h ht hcl hrf
        | tcpUpstream a =>
          simp only [setProxyLoop, hsep0, Bool.false_eq_true, if_false, hcl0] at h
          exact ih _ _ _ _ hn ba path h ht hcl hrf

lemma setProxyLoop_route_origin (iL : Bool) (pu : String → Option GoURL)
    (rF : String → Option String) :
    ∀ (l : List (String × String)) (r0 : List Route) (lg0 : List GoErr)
      (r : List Route) (lg : List GoErr),
      setProxyLoop iL pu rF l r0 lg0 = Except.ok (r, lg) →
      ∀ rt ∈ r, rt ∈ r0 ∨
        ∃ p ∈ l, rt.host = p.1 ∧
          ¬(∃ q, classify iL pu p.2 = Backend.wellKnown q ∧ rF q = none) := by
  intro l
  induction l with
  | nil =>
    intro r0 lg0 r lg h rt hrt
    simp [setProxyLoop] at h
    left
    rw [h.1]
    exact hrt
  | cons hd tl ih =>
    intro r0 lg0 r lg h rt hrt
    obtain ⟨h0, b0⟩ := hd
    by_cases hsep : containsChar h0 pathSeparator = true
    · simp [setProxyLoop, hsep] at h
    · have hsep0 : containsChar h0 pathSeparator = false := by simpa using hsep
      cases hcl0 : classify iL pu b0 with
      | staticDir root =>
        simp only [setProxyLoop, hsep0, Bool.false_eq_true, if_false, hcl0] at h
        rcases ih _ _ _ _ h rt hrt with hin | ⟨p, hp, hhost, hprod⟩
        · rcases List.mem_append.mp hin with hin0 | hin1
          · exact Or.inl hin0
          · refine Or.inr ⟨(h0, b0), List.mem_cons_self _ _, ?_, ?_⟩
            · rw [List.mem_singleton.mp hin1]
            · intro ⟨q, hq, _⟩
              rw [hcl0] at hq
              exact Backend.noConfusion hq
        · exact Or.inr ⟨p, List.mem_cons_of_mem _ hp, hhost, hprod⟩
      | wellKnown path0 =>
        cases hrf0 : rF path0 with
        | none =>
          simp only [setProxyLoop, hsep0, Bool.false_eq_true, if_false, hcl0, hrf0] at h
          rcases ih _ _ _ _ h rt hrt with hin | ⟨p, hp, hhost, hprod⟩
          · exact Or.inl hin
          · exact Or.inr ⟨p, List.mem_cons_of_mem _ hp, hhost, hprod⟩
        | some content =>
          simp only [setProxyLoop, hsep0, Bool.false_eq_true, if_false, hcl0, hrf0] at h
          rcases ih _ _ _ _ h rt hrt with hin | ⟨p, hp, hhost, hprod⟩
          · rcases List.mem_append.mp hin with hin0 | hin1
            · exact Or.inl hin0
            · refine Or.inr ⟨(h0, b0), List.mem_cons_self _ _, ?_, ?_⟩
              · rw [List.mem_singleton.mp hin1]
              · intro ⟨q, hq, hqn⟩
                rw [hcl0] at hq
                have : path0 = q := by
                  injection hq
                rw [← this] at hqn
                rw [hrf0] at hqn
                exact Option.noConfusion hqn
          · exact Or.inr ⟨p, List.mem_cons_of_mem _ hp, hhost, hprod⟩
      | httpUpstream u =>
        simp only [setProxyLoop, hsep0, Bool.false_eq_true, if_false, hcl0] at h
        rcases ih _ _ _ _ h rt hrt with hin | ⟨p, hp, hhost, hprod⟩
        · rcases List.mem_append.mp hin with hin0 | hin1
          · exact Or.inl hin0
          · refine Or.inr ⟨(h0, b0), List.mem_cons_self _ _, ?_, ?_⟩
            · rw [List.mem_singleton.mp hin1]
            · intro ⟨q, hq, _⟩
              rw [hcl0] at hq
              exact Backend.noConfusion hq
        · exact Or.inr ⟨p, List.mem_cons_of_mem _ hp, hhost, hprod⟩
      | abstractUnix a =>
        simp only [setProxyLoop, hsep0, Bool.false_eq_true, if_false, hcl0] at h
        rcases ih _ _ _ _ h rt hrt with hin | ⟨p, hp, hhost, hprod⟩
        · rcases List.mem_append.mp hin with hin0 | hin1
          · exact Or.inl hin0
          · refine Or.inr ⟨(h0, b0), List.mem_cons_self _ _, ?_, ?_⟩
            · rw [List.mem_singleton.mp hin1]
            · intro ⟨q, hq, _⟩
              rw [hcl0] at hq
              exact Backend.noConfusion hq
        · exact Or.inr ⟨p, List.mem_cons_of_mem _ hp, hhost, hprod⟩
      | unixUpstream p0 =>
        simp only [setProxyLoop, hsep0, Bool.false_eq_true, if_false, hcl0] at h
        rcases ih _ _ _ _ h rt hrt with hin | ⟨p, hp, hhost, hprod⟩
        · rcases List.mem_append.mp hin with hin0 | hin1
          · exact Or.inl hin0
          · refine Or.inr ⟨(h0, b0), List.mem_cons_self _ _, ?_, ?_⟩
            · rw [List.mem_singleton.mp hin1]
            · intro ⟨q, hq, _⟩
              rw [hcl0] at hq
              exact Backend.noConfusion hq
        · exact Or.inr ⟨p, List.mem_cons_of_mem _ hp, hhost, hprod⟩
      | tcpUpstream a =>
        simp only [setProxyLoop, hsep0, Bool.false_eq_true, if_false, hcl0] at h
        rcases ih _ _ _ _ h rt hrt with hin | ⟨p, hp, hhost, hprod⟩
        · rcases List.mem_append.mp hin with hin0 | hin1
          · exact Or.inl hin0
          · refine Or.inr ⟨(h0, b0), List.mem_cons_self _ _, ?_, ?_⟩
            · rw [List.mem_singleton.mp hin1]
            · intro ⟨q, hq, _⟩
              rw [hcl0] at hq
              exact Backend.noConfusion hq
        · exact Or.inr ⟨p, List.mem_cons_of_mem _ hp, hhost, hprod⟩

/-- A url.Parse oracle that always fails; concrete instantiations only. -/
def puNone : String → Option GoURL := fun _ => none

/-- An os.ReadFile oracle that always fails; concrete instantiations only. -/
def rfNone : String → Option String := fun _ => none

/-- **C1** (counterexample): for the mapping that sends a.example.com to a
nostr.json backend whose read fails, `setProxy` registers nothing and
returns a nil error, yet the hostname is NOT excluded from the certificate
whitelist handed to the autocert manager: the whitelist is the full key set
of the mapping, so a.example.com is still a member. -/
theorem c1_whitelist_counterexample :
    setProxy true puNone rfNone [("a.example.com", "/d/nostr.json")] =
      Except.ok ([], [GoErr.readFileError "/d/nostr.json"]) ∧
    "a.example.com" ∈ hostWhitelist [("a.example.com", "/d/nostr.json")] := by
  constructor
  · rfl
  · simp [hostWhitelist, GetKeys]

/-- **C1** (amended): for every mapping in which some hostname resolves to a
well-known nostr.json backend whose file read fails, provided the mapping is
non-empty, its keys are distinct and no hostname contains the path
separator, `setProxy` logs the read failure, registers no handler for that
hostname, and returns a handler with nil error; however the hostname
REMAINS in the certificate whitelist handed to the autocert manager, since
that whitelist is the full key set of the mapping. -/
theorem c1_failed_wellknown (iL : Bool) (pu : String → Option GoURL)
    (rF : String → Option String) (mapping : List (String × String)) (hn ba : String)
    (hne : ¬mapping = [])
    (hclean : ∀ p ∈ mapping, containsChar p.1 pathSeparator = false)
    (hmem : (hn, ba) ∈ mapping)
    (hnodup : (mapping.map Prod.fst).Nodup)
    (hcl : classify iL pu ba = Backend.wellKnown ba)
    (hread : rF ba = none) :
    ∃ routes logs,
      setProxy iL pu rF mapping = Except.ok (routes, logs) ∧
      GoErr.readFileError ba ∈ logs ∧
      (∀ rt ∈ routes, rt.host ≠ hn) ∧
      hn ∈ hostWhitelist mapping := by
  have hmt : mapping.isEmpty = false := by
    cases mapping with
    | nil => exact absurd rfl hne
    | cons hd tl => rfl
  have hok : ¬isErr (setProxyLoop iL pu rF mapping [] []) = true := by
    rw [setProxyLoop_err_iff]
    rintro ⟨p, hp, hc⟩
    rw [hclean p hp] at hc
    exact Bool.noConfusion hc
  cases hres : setProxyLoop iL pu rF mapping [] [] with
  | error e =>
    exfalso
    apply hok
    rw [hres]
    rfl
  | ok pr =>
    obtain ⟨routes, logs⟩ := pr
    refine ⟨routes, logs, ?_, ?_, ?_, ?_⟩
    · unfold setProxy
      rw [hmt]
      simp only [Bool.false_eq_true, if_false]
      exact hres
    · exact setProxyLoop_log_mem iL pu rF mapping [] [] routes logs hn ba ba hres hmem hcl hread
    · intro rt hrt heq
      rcases setProxyLoop_route_origin iL pu rF mapping [] [] routes logs hres rt hrt with
        hin | ⟨p, hp, hhost, hprod⟩
      · simp at hin
      · apply hprod
        have hp1 : p.1 = hn := by rw [← hhost, heq]
        have hpm : (hn, p.2) ∈ mapping := by
          have : p = (hn, p.2) := by
            rw [← hp1]
          rw [← this]
          exact hp
        have hv : p.2 = ba := keys_nodup_unique mapping hn p.2 ba hnodup hpm hmem
        rw [hv]
        exact ⟨ba, hcl, hread⟩
    · simp only [hostWhitelist, GetKeys]
      exact List.mem_map.mpr ⟨(hn, ba), hmem, rfl⟩

/-- Closed witness for `c1_failed_wellknown` on the single-entry mapping
sending a.example.com to the unreadable /d/nostr.json. -/
theorem c1_failed_wellknown_witness :
    ∃ routes logs,
      setProxy true puNone rfNone [("a.example.com", "/d/nostr.json")] =
        Except.ok (routes, logs) ∧
      GoErr.readFileError "/d/nostr.json" ∈ logs ∧
      (∀ rt ∈ routes, rt.host ≠ "a.example.com") ∧
      "a.example.com" ∈ hostWhitelist [("a.example.com", "/d/nostr.json")] :=
  c1_failed_wellknown true puNone rfNone [("a.example.com", "/d/nostr.json")]
    "a.example.com" "/d/nostr.json"
    (by simp) (by decide) (by simp) (by simp) (by decide) rfl

/-- Go `unicode.IsSpace`: the Unicode white-space code points. -/
def goIsSpace (c : Char) : Bool :=
  decide (c = ' ' ∨ c = '\t' ∨ c = '\n' ∨ c = '\x0b' ∨ c = '\x0c' ∨ c = '\r' ∨
    c.toNat = 0x85 ∨ c.toNat = 0xa0 ∨ c.toNat = 0x1680 ∨
    (0x2000 ≤ c.toNat ∧ c.toNat ≤ 0x200a) ∨
    c.toNat = 0x2028 ∨ c.toNat = 0x2029 ∨ c.toNat = 0x202f ∨
    c.toNat = 0x205f ∨ c.toNat = 0x3000)

/-- Drop white space from both ends of a character list. -/
def trimList (l : List Char) : List Char :=
  ((l.dropWhile goIsSpace).reverse.dropWhile goIsSpace).reverse

/-- Go `strings.TrimSpace` (src/main.go line 263). -/
def goTrimSpace (s : String) : String :=
  String.mk (trimList s.data)

/-- Go `strings.SplitN(s, ":", 2)` (src/main.go line 256): `none` when the
line holds no colon (the `len(s) != 2` case), otherwise the pieces before
and after the first colon. -/
def splitOnce : List Char → Option (List Char × List Char)
  | [] => none
  | c :: cs =>
    if c = ':' then some ([], cs)
    else
      match splitOnce cs with
      | none => none
      | some (a, b) => some (c :: a, b)

/-- Go map assignment `m[k] = v` on an association-list model: replace the
binding in place or append it. -/
def upsert : List (String × String) → String → String → List (String × String)
  | [], k, v => [(k, v)]
  | (k0, v0) :: rest, k, v =>
    if k0 = k then (k, v) :: rest else (k0, v0) :: upsert rest k v

/-- Go map lookup `m[k]` on the association-list model. -/
def lookupKey (m : List (String × String)) (k : String) : Option String :=
  (m.find? (fun p => p.1 == k)).map Prod.snd

/-- The scanner loop of `readMapping` (src/main.go lines 252-264) over the
list of input lines: blank lines and lines whose first byte is the hash are
skipped; any other line is split at the first colon, key and value trimmed
of surrounding white space, and the binding written into the map; a line
without a colon aborts the whole parse with an error at once. -/
def readMappingGo : List String → List (String × String) → Except GoErr (List (String × String))
  | [], m => Except.ok m
  | l :: rest, m =>
    if l.data.isEmpty = true ∨ l.data.head? = some '#' then readMappingGo rest m
    else
      match splitOnce l.data with
      | none => Except.error (GoErr.invalidLine l)
      | some (a, b) =>
          readMappingGo rest (upsert m (goTrimSpace (String.mk a)) (goTrimSpace (String.mk b)))

/-- `readMapping` (src/main.go lines 245-269) starting from the empty map. -/
def readMapping (lines : List String) : Except GoErr (List (String × String)) :=
  readMappingGo lines []

/-- Spec-side view of a single line: skipped lines produce nothing, any
other line produces its trimmed key/value pair split at the first colon. -/
def parseLineSpec (l : String) : Option (String × String) :=
  if l.data.isEmpty = true ∨ l.data.head? = some '#' then none
  else
    match splitOnce l.data with
    | none => none
    | some (a, b) => some (goTrimSpace (String.mk a), goTrimSpace (String.mk b))

/-- Spec-side lookup: the value of the last non-skipped line whose trimmed
key equals `k`. -/
def lastWins (lines : List String) (k : String) : Option String :=
  ((lines.filterMap parseLineSpec).reverse.find? (fun p => p.1 == k)).map Prod.snd

/-- Left-biased choice on options. -/
def optOr (a b : Option String) : Option String :=
  match a with
  | some v => some v
  | none => b

lemma lookupKey_cons_pos (k0 v0 k' : String) (m : List (String × String)) (h : k0 = k') :
    lookupKey ((k0, v0) :: m) k' = some v0 := by
  unfold lookupKey
  rw [List.find?_cons_of_pos]
  · rfl
  · simp [h]

lemma lookupKey_cons_neg (k0 v0 k' : String) (m : List (String × String)) (h : ¬k0 = k') :
    lookupKey ((k0, v0) :: m) k' = lookupKey m k' := by
  unfold lookupKey
  rw [List.find?_cons_of_neg]
  simp [h]

lemma lookupKey_upsert (m : List (String × String)) (k v k' : String) :
    lookupKey (upsert m k v) k' = if k = k' then some v else lookupKey m k' := by
  induction m with
  | nil =>
    by_cases hk : k = k'
    · simp only [upsert, if_pos hk, lookupKey_cons_pos k v k' [] hk]
    · simp only [upsert, if_neg hk, lookupKey_cons_neg k v k' [] hk]
  | cons hd tl ih =>
    obtain ⟨k0, v0⟩ := hd
    by_cases h0 : k0 = k
    · rw [show upsert ((k0, v0) :: tl) k v = (k, v) :: tl by simp [upsert, h0]]
      by_cases hk : k = k'
      · rw [lookupKey_cons_pos k v k' tl hk, if_pos hk]
      · rw [lookupKey_cons_neg k v k' tl hk, if_neg hk,
          lookupKey_cons_neg k0 v0 k' tl (by rw [h0]; exact hk)]
    · rw [show upsert ((k0, v0) :: tl) k v = (k0, v0) :: upsert tl k v by simp [upsert, h0]]
      by_cases h0k : k0 = k'
      · have hkk : ¬k = k' := by
          intro he
          exact h0 (h0k.trans he.symm)
        rw [lookupKey_cons_pos k0 v0 k' (upsert tl k v) h0k, if_neg hkk,
          lookupKey_cons_pos k0 v0 k' tl h0k]
      · rw [lookupKey_cons_neg k0 v0 k' (upsert tl k v) h0k, ih,
          lookupKey_cons_neg k0 v0 k' tl h0k]

lemma readMappingGo_ok_lookup :
    ∀ (lines : List String) (m0 m : List (String × String)) (k : String),
      readMappingGo lines m0 = Except.ok m →
      lookupKey m k = optOr (lastWins lines k) (lookupKey m0 k) := by
  intro lines
  induction lines with
  | nil =>
    intro m0 m k h
    simp [readMappingGo] at h
    rw [← h]
    simp [lastWins, optOr]
  | cons l rest ih =>
    intro m0 m k h
    by_cases hsk : l.data.isEmpty = true ∨ l.data.head? = some '#'
    · simp only [readMappingGo] at h
      rw [if_pos hsk] at h
      have hpl : parseLineSpec l = none := by
        simp only [parseLineSpec]
        rw [if_pos hsk]
      have hlw : lastWins (l :: rest) k = lastWins rest k := by
        simp [lastWins, List.filterMap_cons, hpl]
      rw [hlw]
      exact ih m0 m k h
    · simp only [readMappingGo] at h
      rw [if_neg hsk] at h
      cases hsp : splitOnce l.data with
      | none =>
        rw [hsp] at h
        exact Except.noConfusion h
      | some ab =>
        obtain ⟨a, b⟩ := ab
        rw [hsp] at h
        simp only at h
        have hpl : parseLineSpec l =
            some (goTrimSpace (String.mk a), goTrimSpace (String.mk b)) := by
          simp only [parseLineSpec]
          rw [if_neg hsk, hsp]
        have hih := ih _ m k h
        rw [hih]
        have hlw : lastWins (l :: rest) k =
            optOr (lastWins rest k)
              (if goTrimSpace (String.mk a) = k then some (goTrimSpace (String.mk b)) else none) := by
          simp only [lastWins, List.filterMap_cons, hpl, List.reverse_cons, List.find?_append]
          cases hfind : (List.filterMap parseLineSpec rest).reverse.find? (fun p => p.1 == k) with
          | some pr => simp [optOr, hfind, Option.orElse]
          | none =>
            by_cases hak : goTrimSpace (String.mk a) = k
            · rw [List.find?_cons_of_pos _ (by simp [hak])]
              simp [optOr, hfind, Option.orElse, hak]
            · rw [List.find?_cons_of_neg _ (by simp [hak])]
              simp [optOr, hfind, Option.orElse, hak]
        rw [hlw, lookupKey_upsert]
        cases hlwr : lastWins rest k with
        | some v0 => simp [optOr]
        | none =>
          by_cases hak : goTrimSpace (String.mk a) = k
          · simp [optOr, hak]
          · simp [optOr, hak]

lemma splitOnce_none_iff (l : List Char) : splitOnce l = none ↔ ':' ∉ l := by
  induction l with
  | nil => simp [splitOnce]
  | cons c cs ih =>
    by_cases hc : c = ':'
    · simp [splitOnce, hc]
    · cases hsp : splitOnce cs with
      | none =>
        have hnone : splitOnce (c :: cs) = none := by
          simp only [splitOnce]
          rw [if_neg hc, hsp]
        rw [hnone]
        have hnot : ':' ∉ cs := ih.mp hsp
        constructor
        · intro _ hm
          rcases List.mem_cons.mp hm with he | ht
          · exact hc he.symm
          · exact hnot ht
        · intro _
          rfl
      | some ab =>
        obtain ⟨a, b⟩ := ab
        have hsome : splitOnce (c :: cs) = some (c :: a, b) := by
          simp only [splitOnce]
          rw [if_neg hc, hsp]
        rw [hsome]
        constructor
        · intro hco
          exact Option.noConfusion hco
        · intro hnm
          exfalso
          have hcs : ':' ∉ cs := fun hm => hnm (List.mem_cons_of_mem _ hm)
          have := ih.mpr hcs
          rw [hsp] at this
          exact Option.noConfusion this

lemma splitOnce_some_split :
    ∀ (l a b : List Char), splitOnce l = some (a, b) → l = a ++ ':' :: b ∧ ':' ∉ a := by
  intro l
  induction l with
  | nil => intro a b h; simp [splitOnce] at h
  | cons c cs ih =>
    intro a b h
    by_cases hc : c = ':'
    · rw [show splitOnce (c :: cs) = some ([], cs) by simp [splitOnce, hc]] at h
      have h1 : ([] : List Char) = a := congrArg Prod.fst (Option.some.inj h)
      have h2 : cs = b := congrArg Prod.snd (Option.some.inj h)
      rw [← h1, ← h2, hc]
      simp
    · simp only [splitOnce, if_neg hc] at h
      cases hsp : splitOnce cs with
      | none => rw [hsp] at h; exact Option.noConfusion h
      | some ab =>
        obtain ⟨a0, b0⟩ := ab
        rw [hsp] at h
        simp only [Option.some.injEq, Prod.mk.injEq] at h
        obtain ⟨hca, hb⟩ := h
        have hrec := ih a0 b0 hsp
        constructor
        · rw [← hca, ← hb]
          simp [hrec.1]
        · rw [← hca]
          intro hm
          rcases List.mem_cons.mp hm with he | ht
          · exact hc he.symm
          · exact hrec.2 ht

/-- **C5**: for every input text, `readMapping` skips lines that are empty
or whose first byte is the hash; splits every other line at the first colon
into key and value, each trimmed of surrounding white space, writing them
into the map so that the last occurrence wins on duplicate keys; and fails
the whole parse with an error as soon as any non-skipped line contains no
colon, so no incomplete mapping is accepted as valid. -/
theorem c5_readMapping_behaviour :
    (∀ (l : String) (rest : List String) (m : List (String × String)),
        (l.data.isEmpty = true ∨ l.data.head? = some '#') →
        readMappingGo (l :: rest) m = readMappingGo rest m) ∧
    (∀ (l : String) (rest : List String) (m : List (String × String)) (a b : List Char),
        ¬(l.data.isEmpty = true ∨ l.data.head? = some '#') →
        splitOnce l.data = some (a, b) →
        readMappingGo (l :: rest) m =
          readMappingGo rest (upsert m (goTrimSpace (String.mk a)) (goTrimSpace (String.mk b)))) ∧
    (∀ (l : String) (rest : List String) (m : List (String × String)),
        ¬(l.data.isEmpty = true ∨ l.data.head? = some '#') →
        splitOnce l.data = none →
        readMappingGo (l :: rest) m = Except.error (GoErr.invalidLine l)) ∧
    (∀ (l a b : List Char), splitOnce l = some (a, b) → l = a ++ ':' :: b ∧ ':' ∉ a) ∧
    (∀ (l : List Char), splitOnce l = none ↔ ':' ∉ l) ∧
    (∀ (lines : List String) (m : List (String × String)) (k : String),
        readMapping lines = Except.ok m →
        lookupKey m k = lastWins lines k) := by
  refine ⟨?_, ?_, ?_, splitOnce_some_split, splitOnce_none_iff, ?_⟩
  · intro l rest m hsk
    simp only [readMappingGo]
    rw [if_pos hsk]
  · intro l rest m a b hns hsp
    simp only [readMappingGo]
    rw [if_neg hns, hsp]
  · intro l rest m hns hsp
    simp only [readMappingGo]
    rw [if_neg hns, hsp]
  · intro lines m k h
    have := readMappingGo_ok_lookup lines [] m k h
    rw [this]
    cases hlw : lastWins lines k with
    | some v => simp [optOr]
    | none => simp [optOr, lookupKey, List.find?]

/-- Closed witness for `c5_readMapping_behaviour`: a skipped blank line, a
split-and-trimmed line, a colon-less fatal line, the first-colon split, the
no-colon criterion and a duplicate key where the last occurrence wins. -/
theorem c5_readMapping_behaviour_witness :
    readMappingGo ["", "b: 2"] [] = readMappingGo ["b: 2"] [] ∧
    readMappingGo ["a : 1"] [] =
      readMappingGo [] (upsert [] (goTrimSpace (String.mk ['a', ' '])) (goTrimSpace (String.mk [' ', '1']))) ∧
    readMappingGo ["nocolon"] [] = Except.error (GoErr.invalidLine "nocolon") ∧
    (['a', ':', 'b'] = ['a'] ++ ':' :: ['b'] ∧ ':' ∉ ['a']) ∧
    (splitOnce ['x'] = none ↔ ':' ∉ ['x']) ∧
    lookupKey [("a", "2")] "a" = lastWins ["a: 1", "#c", "a: 2"] "a" := by
  refine ⟨?_, ?_, ?_, ?_, ?_, ?_⟩
  · exact c5_readMapping_behaviour.1 "" ["b: 2"] [] (Or.inl rfl)
  · exact c5_readMapping_behaviour.2.1 "a : 1" [] [] ['a', ' '] [' ', '1'] (by decide) rfl
  · exact c5_readMapping_behaviour.2.2.1 "nocolon" [] [] (by decide) rfl
  · exact c5_readMapping_behaviour.2.2.2.1 ['a', ':', 'b'] ['a'] ['b'] rfl
  · exact c5_readMapping_behaviour.2.2.2.2.1 ['x']
  · exact c5_readMapping_behaviour.2.2.2.2.2 ["a: 1", "#c", "a: 2"] [("a", "2")] "a" rfl

/-- The parts of Go `http.Request` the directors manipulate. Headers are a
single-valued association list; Go `Header.Set` replaces the value, modelled
by `upsert`, and presence of a key by `lookupKey`. -/
structure Request where
  url : GoURL
  host : String
  remoteAddr : String
  headers : List (String × String)

deriving instance DecidableEq for Request

/-- Modelled from the spec: `util.SingleJoiningSlash` (package util is not
among the sources, only its caller src/reverse/proxy.go line 25). Per the
spec it joins two path pieces ensuring exactly one separating slash at the
boundary: joining "/a/" and "/b" or "/a" and "/b" yields "/a/b", joining
"/a/" and "" yields "/a/". -/
def SingleJoiningSlash (a b : String) : String :=
  if listEndsWith a.data ['/'] then
    if listStartsWith b.data ['/'] then a ++ String.mk (b.data.drop 1) else a ++ b
  else
    if listStartsWith b.data ['/'] then a ++ b else a ++ "/" ++ b

/-- The director installed by `reverse.NewSingleHostReverseProxy`
(src/reverse/proxy.go lines 19-38), translated line for line: rewrite
scheme and host from the target, path-join, merge raw queries, default the
User-Agent to the empty string when the header is absent, and set
X-Forwarded-Proto to https. -/
def reverseProxyDirector (target : GoURL) (req : Request) : Request :=
  let url1 : GoURL :=
    { scheme := target.scheme
      host := target.host
      path := SingleJoiningSlash target.path req.url.path
      rawQuery :=
        if target.rawQuery = "" ∨ req.url.rawQuery = "" then
          target.rawQuery ++ req.url.rawQuery
        else
          target.rawQuery ++ "&" ++ req.url.rawQuery }
  let hs1 :=
    if lookupKey req.headers "User-Agent" = none then
      upsert req.headers "User-Agent" ""
    else req.headers
  let hs2 := upsert hs1 "X-Forwarded-Proto" "https"
  { url := url1, host := req.host, remoteAddr := req.remoteAddr, headers := hs2 }

/-- The director of the generic socket/TCP reverse proxy built inside
`setProxy` (src/main.go lines 219-229): scheme http, host from the inbound
request, X-Forwarded-Proto, X-Forwarded-For and the CORS headers. -/
def genericDirector (req : Request) : Request :=
  let url1 : GoURL :=
    { scheme := "http"
      host := req.host
      path := req.url.path
      rawQuery := req.url.rawQuery }
  let hs1 := upsert req.headers "X-Forwarded-Proto" "https"
  let hs2 := upsert hs1 "X-Forwarded-For" req.remoteAddr
  let hs3 := upsert hs2 "Access-Control-Allow-Methods" "GET,HEAD,PUT,PATCH,POST,DELETE"
  let hs4 := upsert hs3 "Access-Control-Allow-Origin" "*"
  { url := url1, host := req.host, remoteAddr := req.remoteAddr, headers := hs4 }

lemma lookupKey_upsert_self (m : List (String × String)) (k v : String) :
    lookupKey (upsert m k v) k = some v := by
  rw [lookupKey_upsert, if_pos rfl]

lemma lookupKey_upsert_ne (m : List (String × String)) (k v k' : String) (h : ¬k = k') :
    lookupKey (upsert m k v) k' = lookupKey m k' := by
  rw [lookupKey_upsert, if_neg h]

/-- **C6**: for every target URL and inbound request, the HTTP(S)-upstream
director sets the request scheme and host to the target ones, sets the path
to the single-joining-slash join of the target base path and the inbound
path (so joining "/a/" with "/b" and "/a" with "/b" both give "/a/b", and
"/a/" with "" gives "/a/"), concatenates the query strings with an
ampersand only when both are non-empty and by plain concatenation
otherwise, and sets User-Agent to the empty string when the inbound request
carries no User-Agent header. -/
theorem c6_reverse_director (target : GoURL) (req : Request) :
    (reverseProxyDirector target req).url.scheme = target.scheme ∧
    (reverseProxyDirector target req).url.host = target.host ∧
    (reverseProxyDirector target req).url.path =
      SingleJoiningSlash target.path req.url.path ∧
    (target.rawQuery ≠ "" ∧ req.url.rawQuery ≠ "" →
      (reverseProxyDirector target req).url.rawQuery =
        target.rawQuery ++ "&" ++ req.url.rawQuery) ∧
    (¬(target.rawQuery ≠ "" ∧ req.url.rawQuery ≠ "") →
      (reverseProxyDirector target req).url.rawQuery =
        target.rawQuery ++ req.url.rawQuery) ∧
    (lookupKey req.headers "User-Agent" = none →
      lookupKey (reverseProxyDirector target req).headers "User-Agent" = some "") ∧
    SingleJoiningSlash "/a/" "/b" = "/a/b" ∧
    SingleJoiningSlash "/a" "/b" = "/a/b" ∧
    SingleJoiningSlash "/a/" "" = "/a/" := by
  refine ⟨rfl, rfl, rfl, ?_, ?_, ?_, by decide, by decide, by decide⟩
  · intro h
    have hq : ¬(target.rawQuery = "" ∨ req.url.rawQuery = "") := by
      rintro (h1 | h2)
      · exact h.1 h1
      · exact h.2 h2
    simp only [reverseProxyDirector]
    rw [if_neg hq]
  · intro h
    have hq : target.rawQuery = "" ∨ req.url.rawQuery = "" := by
      by_cases h1 : target.rawQuery = ""
      · exact Or.inl h1
      · by_cases h2 : req.url.rawQuery = ""
        · exact Or.inr h2
        · exact absurd ⟨h1, h2⟩ h
    simp only [reverseProxyDirector]
    rw [if_pos hq]
  · intro h
    simp only [reverseProxyDirector]
    rw [if_pos h, lookupKey_upsert_ne _ _ _ _ (by decide), lookupKey_upsert_self]

/-- Closed witness for `c6_reverse_director` with both query shapes and an
absent User-Agent header discharged at concrete requests. -/
theorem c6_reverse_director_witness :
    (reverseProxyDirector ⟨"https", "h", "/a", "x=1"⟩ ⟨⟨"", "", "/b", "y=2"⟩, "c", "r", []⟩).url.rawQuery =
      "x=1" ++ "&" ++ "y=2" ∧
    (reverseProxyDirector ⟨"https", "h", "/a", ""⟩ ⟨⟨"", "", "/b", "y=2"⟩, "c", "r", []⟩).url.rawQuery =
      "" ++ "y=2" ∧
    lookupKey (reverseProxyDirector ⟨"https", "h", "/a", "x=1"⟩ ⟨⟨"", "", "/b", "y=2"⟩, "c", "r", []⟩).headers
      "User-Agent" = some "" := by
  refine ⟨?_, ?_, ?_⟩
  · exact (c6_reverse_director ⟨"https", "h", "/a", "x=1"⟩ ⟨⟨"", "", "/b", "y=2"⟩, "c", "r", []⟩).2.2.2.1
      (by decide)
  · exact (c6_reverse_director ⟨"https", "h", "/a", ""⟩ ⟨⟨"", "", "/b", "y=2"⟩, "c", "r", []⟩).2.2.2.2.1
      (by decide)
  · exact (c6_reverse_director ⟨"https", "h", "/a", "x=1"⟩ ⟨⟨"", "", "/b", "y=2"⟩, "c", "r", []⟩).2.2.2.2.2.1
      rfl

/-- **C7** (counterexample): the HTTP(S)-upstream director of
src/reverse/proxy.go does not set X-Forwarded-For: after directing a
concrete request with remote address 10.0.0.1:1234 and no headers, the
X-Forwarded-For header is still absent rather than the remote address. -/
theorem c7_forwarded_for_counterexample :
    lookupKey (reverseProxyDirector ⟨"http", "h", "/", ""⟩
        ⟨⟨"", "", "/", ""⟩, "host", "10.0.0.1:1234", []⟩).headers "X-Forwarded-For" = none ∧
    ¬lookupKey (reverseProxyDirector ⟨"http", "h", "/", ""⟩
        ⟨⟨"", "", "/", ""⟩, "host", "10.0.0.1:1234", []⟩).headers "X-Forwarded-For" =
      some "10.0.0.1:1234" := by
  constructor
  · rfl
  · intro h
    exact Option.noConfusion (Eq.trans rfl h)

/-- **C7** (amended): the generic socket/TCP upstream director sets
X-Forwarded-Proto to https and X-Forwarded-For to the observed remote
address of the request; the HTTP(S)-upstream director sets X-Forwarded-Proto
to https but leaves X-Forwarded-For unchanged (it never sets it). -/
theorem c7_forwarded_headers (target : GoURL) (req : Request) :
    lookupKey (genericDirector req).headers "X-Forwarded-Proto" = some "https" ∧
    lookupKey (genericDirector req).headers "X-Forwarded-For" = some req.remoteAddr ∧
    lookupKey (reverseProxyDirector target req).headers "X-Forwarded-Proto" = some "https" ∧
    lookupKey (reverseProxyDirector target req).headers "X-Forwarded-For" =
      lookupKey req.headers "X-Forwarded-For" := by
  refine ⟨?_, ?_, ?_, ?_⟩
  · simp only [genericDirector]
    rw [lookupKey_upsert_ne _ _ _ _ (by decide), lookupKey_upsert_ne _ _ _ _ (by decide),
      lookupKey_upsert_ne _ _ _ _ (by decide), lookupKey_upsert_self]
  · simp only [genericDirector]
    rw [lookupKey_upsert_ne _ _ _ _ (by decide), lookupKey_upsert_ne _ _ _ _ (by decide),
      lookupKey_upsert_self]
  · simp only [reverseProxyDirector]
    rw [lookupKey_upsert_self]
  · simp only [reverseProxyDirector]
    rw [lookupKey_upsert_ne _ _ _ _ (by decide)]
    by_cases hua : lookupKey req.headers "User-Agent" = none
    · rw [if_pos hua, lookupKey_upsert_ne _ _ _ _ (by decide)]
    · rw [if_neg hua]

/-- `timeout.Conn` (src/timeout/conn.go): the configured idle duration and
the absolute deadline currently installed on the socket, in nanoseconds. -/
structure TimeoutConn where
  duration : Int
  deadline : Option Int

deriving instance DecidableEq for TimeoutConn

/-- `Conn.getTimeout` (src/timeout/conn.go line 36): now plus the idle
duration. -/
def getTimeout (c : TimeoutConn) (now : Int) : Int :=
  now + c.duration

/-- `net.TCPConn.SetDeadline` modelled on the explicit state: on success the
absolute deadline is installed, on failure (oracle `sdErr`) the state is
unchanged. -/
def setConnDeadline (c : TimeoutConn) (t : Int) (sdErr : Option GoErr) : TimeoutConn :=
  match sdErr with
  | none => { duration := c.duration, deadline := some t }
  | some _ => c

/-- `Conn.Read` (src/timeout/conn.go lines 20-26). `ioRes` is the oracle
result of the underlying `TCPConn.Read` and `sdErr` the oracle result of
`SetDeadline`: on I/O success the deadline is reset to now plus the idle
duration and the SetDeadline error, if any, is returned alongside the byte
count; on I/O failure nothing else happens. -/
def connRead (c : TimeoutConn) (now : Int) (ioRes : Nat × Option GoErr)
    (sdErr : Option GoErr) : (Nat × Option GoErr) × TimeoutConn :=
  match ioRes with
  | (n, some e) => ((n, some e), c)
  | (n, none) => ((n, sdErr), setConnDeadline c (getTimeout c now) sdErr)

/-- `Conn.Write` (src/timeout/conn.go lines 28-34), same shape as
`Conn.Read`. -/
def connWrite (c : TimeoutConn) (now : Int) (ioRes : Nat × Option GoErr)
    (sdErr : Option GoErr) : (Nat × Option GoErr) × TimeoutConn :=
  match ioRes with
  | (n, some e) => ((n, some e), c)
  | (n, none) => ((n, sdErr), setConnDeadline c (getTimeout c now) sdErr)

/-- **C8**: for every idle-timeout connection with configured duration d, a
Read or Write whose underlying I/O succeeds (and whose deadline installation
succeeds) sets the connection deadline to now plus d, and a Read or Write
whose underlying I/O fails leaves the connection state, deadline included,
unchanged. -/
theorem c8_idle_deadline_reset :
    (∀ (c : TimeoutConn) (now : Int) (n : Nat),
      ((connRead c now (n, none) none).2).deadline = some (now + c.duration)) ∧
    (∀ (c : TimeoutConn) (now : Int) (n : Nat),
      ((connWrite c now (n, none) none).2).deadline = some (now + c.duration)) ∧
    (∀ (c : TimeoutConn) (now : Int) (n : Nat) (e : GoErr) (sdErr : Option GoErr),
      connRead c now (n, some e) sdErr = ((n, some e), c)) ∧
    (∀ (c : TimeoutConn) (now : Int) (n : Nat) (e : GoErr) (sdErr : Option GoErr),
      connWrite c now (n, some e) sdErr = ((n, some e), c)) :=
  ⟨fun _ _ _ => rfl, fun _ _ _ => rfl, fun _ _ _ _ _ => rfl, fun _ _ _ _ _ => rfl⟩

/-- **C10**: for every idle-timeout connection, a Read or Write whose
underlying I/O succeeds but whose deadline installation fails returns the
transferred byte count together with the non-nil deadline error and leaves
the deadline unchanged; in particular a caller observes n = 5 with a
non-nil error although the transfer succeeded. -/
theorem c10_success_then_deadline_error :
    (∀ (c : TimeoutConn) (now : Int) (n : Nat) (e : GoErr),
      connRead c now (n, none) (some e) = ((n, some e), c)) ∧
    (∀ (c : TimeoutConn) (now : Int) (n : Nat) (e : GoErr),
      connWrite c now (n, none) (some e) = ((n, some e), c)) ∧
    (connWrite ⟨60, none⟩ 0 (5, none) (some (GoErr.other "set deadline failed")) =
      ((5, some (GoErr.other "set deadline failed")), ⟨60, none⟩) ∧ 0 < 5) :=
  ⟨fun _ _ _ _ => rfl, fun _ _ _ _ => rfl, rfl, by decide⟩

/-- The two ways `run` serves TLS (src/main.go lines 101-121). -/
inductive Strategy where
  | direct
  | manualKeepAlive (idle : Int)

deriving instance DecidableEq for Strategy

/-- The TLS-serving branch of `run` (src/main.go lines 74-80 and 101-121):
the server read/write timeouts are installed only when the configured
durations are strictly positive, and the direct listen-and-serve path is
taken when either installed timeout is non-zero or the idle duration is
zero; otherwise a manual listener wrapped in the keep-alive decorator
carrying the idle duration is used. -/
def chooseStrategy (rto wto idle : Int) : Strategy :=
  let readTimeout : Int := if 0 < rto then rto else 0
  let writeTimeout : Int := if 0 < wto then wto else 0
  if readTimeout ≠ 0 ∨ writeTimeout ≠ 0 ∨ idle = 0 then Strategy.direct
  else Strategy.manualKeepAlive idle

/-- The connection handed out by `tcpkeepalive.Listener.Accept`: wrapped in
the idle-timeout connection or the plain TCP connection. -/
inductive WrappedConn where
  | timeoutConn (idle : Int)
  | plainTCP

deriving instance DecidableEq for WrappedConn

/-- The observable effects of `tcpkeepalive.Listener.Accept`
(src/unnamed/part_004, `Accept`): keep-alive enabled with the configured
period, and the accepted connection wrapped in `timeout.Conn` exactly when
the listener duration is non-zero. -/
structure AcceptResult where
  keepAlive : Bool
  keepAlivePeriod : Int
  conn : WrappedConn

deriving instance DecidableEq for AcceptResult

/-- `tcpkeepalive.Listener.Accept` on the success path. -/
def listenerAccept (duration : Int) (period : Int) : AcceptResult :=
  { keepAlive := true
    keepAlivePeriod := period
    conn := if duration ≠ 0 then WrappedConn.timeoutConn duration else WrappedConn.plainTCP }

/-- **C9** (counterexample): with a configured read timeout of -1, write
timeout 0 and idle timeout 60, the read timeout is non-zero yet the
orchestrator does NOT take the direct listen-and-serve path (a negative
configured timeout is never installed on the server), refuting the claimed
equivalence at this configuration. -/
theorem c9_strategy_counterexample :
    ¬(chooseStrategy (-1) 0 60 = Strategy.direct ↔
      ((-1 : Int) ≠ 0 ∨ (0 : Int) ≠ 0 ∨ (60 : Int) = 0)) := by
  decide

/-- **C9** (amended): for every configuration, the orchestrator serves TLS
via the plain direct listen-and-serve path if and only if the read timeout
is positive, the write timeout is positive, or the idle timeout is zero; in
the remaining case it serves via a manually constructed listener wrapped
with the keep-alive decorator whose accepted connections are wrapped in the
idle-timeout connection; the two strategies are never both active. -/
theorem c9_strategy (rto wto idle period : Int) :
    (chooseStrategy rto wto idle = Strategy.direct ↔
      (0 < rto ∨ 0 < wto ∨ idle = 0)) ∧
    (¬(0 < rto ∨ 0 < wto ∨ idle = 0) →
      chooseStrategy rto wto idle = Strategy.manualKeepAlive idle ∧
      (listenerAccept idle period).conn = WrappedConn.timeoutConn idle ∧
      (listenerAccept idle period).keepAlive = true) ∧
    ¬(chooseStrategy rto wto idle = Strategy.direct ∧
      chooseStrategy rto wto idle = Strategy.manualKeepAlive idle) := by
  have hr : ((if 0 < rto then rto else 0) ≠ 0 ∨ (if 0 < wto then wto else 0) ≠ 0 ∨ idle = 0) ↔
      (0 < rto ∨ 0 < wto ∨ idle = 0) := by
    by_cases h1 : 0 < rto
    · simp [h1, Int.ne_of_gt h1]
    · by_cases h2 : 0 < wto
      · simp [h1, h2, Int.ne_of_gt h2]
      · simp [h1, h2]
  refine ⟨?_, ?_, ?_⟩
  · constructor
    · intro h
      by_contra hn
      have : chooseStrategy rto wto idle = Strategy.manualKeepAlive idle := by
        unfold chooseStrategy
        simp only []
        rw [if_neg (fun hc => hn (hr.mp hc))]
      rw [this] at h
      exact Strategy.noConfusion h
    · intro h
      unfold chooseStrategy
      simp only []
      rw [if_pos (hr.mpr h)]
  · intro hn
    refine ⟨?_, ?_, rfl⟩
    · unfold chooseStrategy
      simp only []
      rw [if_neg (fun hc => hn (hr.mp hc))]
    · have hidle : idle ≠ 0 := fun h0 => hn (Or.inr (Or.inr h0))
      simp [listenerAccept, hidle]
  · rintro ⟨h1, h2⟩
    rw [h1] at h2
    exact Strategy.noConfusion h2

/-- Closed witness for `c9_strategy` at read and write timeouts 0 and idle
timeout 60. -/
theorem c9_strategy_witness :
    chooseStrategy 0 0 60 = Strategy.manualKeepAlive 60 ∧
    (listenerAccept 60 180).conn = WrappedConn.timeoutConn 60 := by
  have h := (c9_strategy 0 0 60 180).2.1 (by decide)
  exact ⟨h.1, h.2.1⟩
